import Mathlib

/-!
# Order-book relay: cache, metric, level decoding and ticker server

A shallow embedding of `binance/client.go` and `server.go`.

* `F64` models Go's `float64`: finite values are carried as rationals, the two
  infinities and NaN are separate constructors, and every arithmetic result is
  rounded to binary64 (round to nearest, ties to even) by `roundQ`.  The model
  carries one zero, which stands for `+0`: Go's `==` and its map-key equality
  identify the two zeros, and the only divisor the code builds is a converted
  non-negative count.
* `GoMap` models `map[float64]float64` as the list of its entries in the order a
  `range` loop visits them.  Key equality is Go's `==`, under which NaN differs
  from every value, itself included.
* Library calls (`encoding/json`, `strconv`, the websocket write) are parameters
  collected in `GoLib` and `Net`; `goLib` is a concrete fragment used to evaluate
  the code on explicit inputs.
-/

/-! ## float64 -/

/-- Values of Go's `float64`. -/
inductive F64 where
  | fin (q : ℚ)
  | inf (neg : Bool)
  | nan
  deriving DecidableEq, Repr

/-- Round the non-negative ratio `n / d` to an integer, ties to even. -/
def roundHalfEven (n d : Nat) : Nat :=
  let q := n / d
  let r := n % d
  if 2 * r < d then q
  else if d < 2 * r then q + 1
  else if q % 2 = 0 then q else q + 1

/-- Binary exponent of the positive ratio `n / d`: the `e` with `2^e ≤ n/d < 2^(e+1)`. -/
def binExp (n d : Nat) : Int :=
  let e0 : Int := (Nat.log2 n : Int) - (Nat.log2 d : Int)
  if e0 ≥ 0 then (if d * 2 ^ e0.toNat ≤ n then e0 else e0 - 1)
  else (if d ≤ n * 2 ^ (-e0).toNat then e0 else e0 - 1)

/-- Rounding of an exact rational result to binary64: 53 significant bits, exponents
from -1022 (subnormals share it) and overflow to infinity from `2^1024` on. -/
def roundQ (x : ℚ) : F64 :=
  if x = 0 then F64.fin 0 else
  let n := x.num.natAbs
  let d := x.den
  let e := max (binExp n d) (-1022)
  let s := e - 52
  let m := if s ≥ 0 then roundHalfEven n (d * 2 ^ s.toNat) else roundHalfEven (n * 2 ^ (-s).toNat) d
  let v : ℚ := if s ≥ 0 then ((m * 2 ^ s.toNat : Nat) : ℚ) else mkRat m (2 ^ (-s).toNat)
  if (2 : ℚ) ^ 1024 ≤ v then F64.inf (decide (x < 0))
  else F64.fin (if x < 0 then -v else v)

namespace F64

/-- Go's `a == b` on `float64`: NaN is unequal to everything. -/
def goEq (a b : F64) : Bool :=
  match a with
  | nan => false
  | _ => decide (a = b)

/-- Go's `a + b` on `float64`. -/
def add : F64 → F64 → F64
  | nan, _ => nan
  | _, nan => nan
  | inf a, inf b => if a = b then inf a else nan
  | inf a, fin _ => inf a
  | fin _, inf b => inf b
  | fin a, fin b => roundQ (a + b)

/-- Go's `a / b` on `float64`; a zero divisor is `+0`. -/
def div : F64 → F64 → F64
  | nan, _ => nan
  | _, nan => nan
  | inf _, inf _ => nan
  | inf a, fin b => if b < 0 then inf (!a) else inf a
  | fin _, inf _ => fin 0
  | fin a, fin b =>
    if b = 0 then (if a = 0 then nan else inf (decide (a < 0)))
    else roundQ (a / b)

/-- Go's conversion `float64(n)` of a non-negative `int`. -/
def ofCount (n : Nat) : F64 := roundQ (n : ℚ)

/-- Finite values; NaN and the infinities are the non-finite ones. -/
def isFinite : F64 → Bool
  | fin _ => true
  | _ => false

end F64

/-! ## Go maps keyed by float64 -/

/-- A `map[float64]float64`: its (key, value) entries in iteration order. -/
abbrev GoMap := List (F64 × F64)

namespace GoMap

/-- The assignment `m[k] = v`: overwrite the entry whose key `== k`, else add one. -/
def set : GoMap → F64 → F64 → GoMap
  | [], k, v => [(k, v)]
  | (k', v') :: m, k, v =>
    if F64.goEq k' k then (k, v) :: m else (k', v') :: set m k v

/-- The lookup `v, ok := m[k]`. -/
def get? : GoMap → F64 → Option F64
  | [], _ => none
  | (k', v') :: m, k => if F64.goEq k' k then some v' else get? m k

/-- The keys a `range` loop yields. -/
def keys (m : GoMap) : List F64 := m.map Prod.fst

/-- The map has an entry whose key `== k`. -/
def hasKey (m : GoMap) (k : F64) : Bool := m.any (fun e => F64.goEq e.1 k)

/-- No two entries have `==` keys: the invariant of every Go map. -/
def WF (m : GoMap) : Prop := m.Pairwise (fun a b => F64.goEq a.1 b.1 = false)

end GoMap

namespace Binance

/-! ## binance/client.go -/

/-- A single price/qty pair of the order book. -/
structure OrderBookEntry where
  price : F64
  qty : F64
  deriving DecidableEq, Repr

/-- The zero value of `OrderBookEntry`. -/
def OrderBookEntry.zero : OrderBookEntry := ⟨F64.fin 0, F64.fin 0⟩

/-- The cached order book; orders are indexed by price. -/
structure OrderBook where
  Asks : GoMap
  Bids : GoMap
  deriving DecidableEq, Repr

/-- The book `CreateOrderBookClient` starts from. -/
def OrderBook.empty : OrderBook := ⟨[], []⟩

/-- The level lists of a decoded depth event (the fields the cache reads). -/
structure DepthUpdate where
  Asks : List OrderBookEntry
  Bids : List OrderBookEntry
  deriving DecidableEq, Repr

/-- One side of `updateOrderBook`: `for _, item := range levels { m[item.price] = item.qty }`. -/
def applyLevels (m : GoMap) (levels : List OrderBookEntry) : GoMap :=
  levels.foldl (fun acc item => GoMap.set acc item.price item.qty) m

/-- `updateOrderBook`: replace the orders or insert new ones, asks first, then bids. -/
def updateOrderBook (c : OrderBook) (update : DepthUpdate) : OrderBook :=
  { Asks := applyLevels c.Asks update.Asks
    Bids := applyLevels c.Bids update.Bids }

/-- The accumulation `for price := range m { sum += price }` from `0.0`. -/
def sumKeys (m : GoMap) : F64 :=
  m.foldl (fun acc e => F64.add acc e.1) (F64.fin 0)

/-- `calculateAvg`: both key sums added, divided by `len(Asks) + len(Bids)`. -/
def calculateAvg (c : OrderBook) : F64 :=
  let bidSum := sumKeys c.Asks
  let askSum := sumKeys c.Bids
  let orderCount := c.Asks.length + c.Bids.length
  let orderSum := F64.add bidSum askSum
  F64.div orderSum (F64.ofCount orderCount)

/-- The level `item` is the last one of `levels` for its price: no later level has an
`==` price. -/
def LastFor (levels : List OrderBookEntry) (item : OrderBookEntry) : Prop :=
  ∃ l₁ l₂, levels = l₁ ++ item :: l₂ ∧ ∀ e ∈ l₂, F64.goEq e.price item.price = false

/-- The pair of `item` is stored in `m`: it is an entry, and the lookup `m[price]`
finds its quantity unless the price is NaN (which no lookup finds). -/
def Stored (m : GoMap) (item : OrderBookEntry) : Prop :=
  (item.price, item.qty) ∈ m ∧ (item.price ≠ F64.nan → GoMap.get? m item.price = some item.qty)

end Binance

/-! ## Calls into the Go libraries -/

deriving instance DecidableEq for Except

/-- How a Go call ends: it returns, or a run-time panic unwinds the goroutine. -/
inductive Outcome (α : Type) where
  | ret (a : α)
  | panic (msg : String)
  deriving DecidableEq, Repr

/-- The two level arrays of a depth frame: `a` (asks) and `b` (bids). -/
inductive Side where
  | ask
  | bid
  deriving DecidableEq, Repr

/-- What `encoding/json` finds when it walks a syntactically valid depth frame: the raw
JSON text of every element of the arrays `a` and `b`, in document order, each of which it
hands to `OrderBookEntry.UnmarshalJSON` on a zero-valued element (each of the two keys
taken to occur at most once in the frame); and the type error it saved for one of the
other fields, reported once the walk is over. -/
structure Frame where
  levels : List (Side × String)
  typeErr : Option String
  deriving DecidableEq, Repr

/-- The library functions `client.go` calls.  Errors are carried as their text. -/
structure GoLib where
  /-- The call `json.Unmarshal(data, &content)` with `content []string`. -/
  unmarshalStrings : String → Except String (List String)
  /-- The call `strconv.ParseFloat(s, 64)`. -/
  parseFloat : String → Except String F64
  /-- The walk of `json.Unmarshal(message, update)`; a syntax error rejects the frame
  before any level is decoded. -/
  walkDepthUpdate : String → Except String Frame

namespace Binance

/-- `OrderBookEntry.UnmarshalJSON`: the entry after the call and the returned error, or the
panic of an out-of-range index into `content`. -/
def UnmarshalJSON (lib : GoLib) (o : OrderBookEntry) (data : String) :
    Outcome (OrderBookEntry × Option String) :=
  if data = "null" ∨ data = "\"\"" then .ret (o, none)
  else
    match lib.unmarshalStrings data with
    | .error err => .ret (o, some err)
    | .ok content =>
      match content[0]? with
      | none => .panic "runtime error: index out of range [0] with length 0"
      | some s0 =>
        match lib.parseFloat s0 with
        | .error err => .ret (o, some err)
        | .ok price =>
          match content[1]? with
          | none => .panic "runtime error: index out of range [1] with length 1"
          | some s1 =>
            match lib.parseFloat s1 with
            | .error err => .ret (o, some err)
            | .ok qty => .ret (⟨price, qty⟩, none)

/-- Append a decoded level to its side of the update. -/
def DepthUpdate.push (u : DepthUpdate) : Side → OrderBookEntry → DepthUpdate
  | .ask, o => { u with Asks := u.Asks ++ [o] }
  | .bid, o => { u with Bids := u.Bids ++ [o] }

/-- The levels of a frame decoded one after the other; the first error or panic of
`UnmarshalJSON` ends the decoding. -/
def decodeLevels (lib : GoLib) :
    List (Side × String) → DepthUpdate → Outcome (Except String DepthUpdate)
  | [], u => .ret (.ok u)
  | (side, raw) :: rest, u =>
    match UnmarshalJSON lib OrderBookEntry.zero raw with
    | .panic msg => .panic msg
    | .ret (_, some err) => .ret (.error err)
    | .ret (o, none) => decodeLevels lib rest (u.push side o)

/-- The call `json.Unmarshal(message, update)` on a fresh `DepthUpdate`. -/
def unmarshalDepthUpdate (lib : GoLib) (message : String) :
    Outcome (Except String DepthUpdate) :=
  match lib.walkDepthUpdate message with
  | .error err => .ret (.error err)
  | .ok frame =>
    match decodeLevels lib frame.levels ⟨[], []⟩ with
    | .panic msg => .panic msg
    | .ret (.error err) => .ret (.error err)
    | .ret (.ok update) =>
      match frame.typeErr with
      | some err => .ret (.error err)
      | none => .ret (.ok update)

/-- `processUpdate`: the cache after the call and the value sent on `AvgUpdate` (none when
the message is dropped), or the panic raised while decoding. -/
def processUpdate (lib : GoLib) (c : OrderBook) (message : String) :
    Outcome (OrderBook × Option F64) :=
  match unmarshalDepthUpdate lib message with
  | .panic msg => .panic msg
  | .ret (.error _) => .ret (c, none)
  | .ret (.ok update) =>
    let c' := updateOrderBook c update
    .ret (c', some (calculateAvg c'))

/-! ### The metric as the specification words it -/

/-- Keys with the repetitions (under `==`) removed. -/
def dedupKeys : List F64 → List F64
  | [] => []
  | k :: ks => if ks.any (F64.goEq k) then dedupKeys ks else k :: dedupKeys ks

/-- The distinct price keys across both sides. -/
def distinctKeys (c : OrderBook) : List F64 :=
  dedupKeys (GoMap.keys c.Asks ++ GoMap.keys c.Bids)

/-- Spec wording of `computeMetric` (section 4.2), for comparison with `calculateAvg`: the
sum of every distinct price key across both sides divided by the count of distinct keys,
and an empty-book error (here `none`) when that count is zero. -/
def specComputeMetric (c : OrderBook) : Option F64 :=
  if (distinctKeys c).length = 0 then none
  else some (F64.div ((distinctKeys c).foldl F64.add (F64.fin 0))
    (F64.ofCount (distinctKeys c).length))

end Binance

/-! ## A fragment of the libraries, to run the code on explicit inputs -/

namespace Fragment

/-- The value of a non-empty string of decimal digits. -/
def digitsVal : List Char → Option Nat
  | [] => none
  | cs => if cs.all Char.isDigit then some (cs.foldl (fun n c => 10 * n + (c.toNat - 48)) 0) else none

/-- An unsigned decimal `ddd` or `ddd.ddd` as an exact rational. -/
def decimalVal (cs : List Char) : Option ℚ :=
  match cs.span (fun c => c != '.') with
  | (ip, []) => (digitsVal ip).map (fun n => (n : ℚ))
  | (ip, _ :: fp) =>
    match digitsVal ip, digitsVal fp with
    | some i, some f => some (mkRat (i * 10 ^ fp.length + f) (10 ^ fp.length))
    | _, _ => none

/-- `strconv.ParseFloat(s, 64)` on plain signed decimals and on `NaN`, `Inf`, `+Inf`, `-Inf`:
the nearest float64.  Every other spelling is outside the fragment and reported as an error. -/
def parseFloat (s : String) : Except String F64 :=
  if s = "NaN" then .ok F64.nan
  else if s = "Inf" ∨ s = "+Inf" then .ok (F64.inf false)
  else if s = "-Inf" then .ok (F64.inf true)
  else
    match s.data with
    | '-' :: cs =>
      match decimalVal cs with
      | some q => .ok (roundQ (-q))
      | none => .error "invalid syntax"
    | cs =>
      match decimalVal cs with
      | some q => .ok (roundQ q)
      | none => .error "invalid syntax"

/-- Split at the commas outside brackets, braces and string literals. -/
def splitTop : List Char → Nat → Bool → List Char → List String
  | [], _, _, cur => if cur.isEmpty then [] else [String.mk cur.reverse]
  | c :: cs, depth, inStr, cur =>
    if inStr then splitTop cs depth (c != '"') (c :: cur)
    else if c = '"' then splitTop cs depth true (c :: cur)
    else if c = '[' ∨ c = '{' then splitTop cs (depth + 1) false (c :: cur)
    else if c = ']' ∨ c = '}' then splitTop cs (depth - 1) false (c :: cur)
    else if c = ',' ∧ depth = 0 then String.mk cur.reverse :: splitTop cs 0 false []
    else splitTop cs depth false (c :: cur)

/-- The text between an opening and a closing delimiter. -/
def inner (opening closing : Char) (s : String) : Option (List Char) :=
  match s.data with
  | [] => none
  | c :: cs =>
    if c = opening ∧ cs.getLast? = some closing then some cs.dropLast else none

/-- The elements of a JSON array, as raw text. -/
def elements (s : String) : Option (List String) :=
  (inner '[' ']' s).map (fun cs => splitTop cs 0 false [])

/-- The content of a string literal without escapes. -/
def plainString (s : String) : Option String :=
  match inner '"' '"' s with
  | some cs => if cs.all (fun c => c != '"' && c != '\\') then some (String.mk cs) else none
  | none => none

/-- `json.Unmarshal(data, &content)` on arrays of escape-free string literals written
without white space. -/
def unmarshalStrings (data : String) : Except String (List String) :=
  match elements data with
  | none => .error "cannot unmarshal into Go value of type []string"
  | some raws =>
    match raws.mapM plainString with
    | some content => .ok content
    | none => .error "cannot unmarshal into Go value of type string"

/-- The levels of one member `"key":value` of the frame object. -/
def memberLevels (m : String) : Option (List (Side × String)) :=
  match m.data.span (fun c => c != ':') with
  | (key, _ :: value) =>
    if key = "\"a\"".data then (elements (String.mk value)).map (List.map (fun r => (Side.ask, r)))
    else if key = "\"b\"".data then (elements (String.mk value)).map (List.map (fun r => (Side.bid, r)))
    else some []
  | (_, []) => none

/-- The walk of a depth frame written without white space whose members other than `a`
and `b` are well typed. -/
def walkDepthUpdate (message : String) : Except String Frame :=
  match inner '{' '}' message with
  | none => .error "cannot unmarshal into Go value of type binance.DepthUpdate"
  | some cs =>
    match (splitTop cs 0 false []).mapM memberLevels with
    | some ls => .ok ⟨ls.flatten, none⟩
    | none => .error "invalid character"

end Fragment

/-- The library fragment: exact on the frames evaluated below, and used in no general
statement. -/
def goLib : GoLib :=
  { unmarshalStrings := Fragment.unmarshalStrings
    parseFloat := Fragment.parseFloat
    walkDepthUpdate := Fragment.walkDepthUpdate }

/-! ## server.go -/

namespace Server

/-- The identity of a `*websocket.Conn`. -/
abbrev Conn := Nat

/-- The fields of `TickerServer` the publisher reads and writes. -/
structure TickerServer where
  lastAvg : F64
  clients : List Conn
  deriving DecidableEq, Repr

/-- What the server calls outside the repository. -/
structure Net where
  /-- The call `strconv.FormatFloat(v, 'f', -1, 64)`. -/
  formatFloat : F64 → String
  /-- Whether `WriteMessage` on the connection returns an error. -/
  writeFails : Conn → Bool

/-- One call of `WriteMessage`: connection, message type, payload, and whether it failed. -/
structure Write where
  conn : Conn
  messageType : Nat
  payload : String
  failed : Bool
  deriving DecidableEq, Repr

/-- `CreateWSServer`: last value 0.0 and no clients. -/
def CreateWSServer : TickerServer := ⟨F64.fin 0, []⟩

/-- The registration in `ticker`: `t.clients = append(t.clients, c)`. -/
def register (t : TickerServer) (c : Conn) : TickerServer :=
  { t with clients := t.clients ++ [c] }

/-- `broadcastTickerUpdate`: one `WriteMessage(1, value)` per client, the returned error
dropped; the server afterwards and the writes issued. -/
def broadcastTickerUpdate (net : Net) (t : TickerServer) (value : F64) :
    TickerServer × List Write :=
  t.clients.foldl
    (fun acc c =>
      let value' := net.formatFloat value
      (acc.1, acc.2 ++ [⟨c, 1, value', net.writeFails c⟩]))
    (t, [])

/-- Where the goroutine of `Start` stands. -/
inductive Pc where
  /-- Before `http.HandleFunc`. -/
  | handleFunc
  /-- Inside `http.ListenAndServe`, which returns only once the server has stopped. -/
  | listenAndServe
  /-- At the receive `<-t.binance.AvgUpdate` of the loop. -/
  | receive
  deriving DecidableEq, Repr

/-- The goroutine of `Start` together with the server it works on. -/
structure StartState where
  pc : Pc
  t : TickerServer
  /-- The values the loop has received from `AvgUpdate`, oldest first. -/
  received : List F64
  /-- The writes the broadcasts have issued, oldest first. -/
  writes : List Write
  deriving DecidableEq, Repr

/-- What can happen around the goroutine of `Start`. -/
inductive Event where
  /-- The goroutine runs its next statement. -/
  | run
  /-- The HTTP server stops and `ListenAndServe` returns its error. -/
  | serverStopped
  /-- The handler `ticker` registers an accepted connection. -/
  | accept (c : Conn)
  /-- The feed offers a metric on the unbuffered channel `AvgUpdate`. -/
  | offer (v : F64)
  deriving DecidableEq, Repr

/-- The goroutine is inside `ListenAndServe`: the gateway is serving. -/
def StartState.serving (s : StartState) : Bool := decide (s.pc = Pc.listenAndServe)

/-- One step of the goroutine of `Start`; an event that is not enabled leaves the state as
it is (an offered metric stays with the blocked sender unless the loop receives it). -/
def startStep (net : Net) (s : StartState) : Event → StartState
  | .run =>
    match s.pc with
    | .handleFunc => { s with pc := .listenAndServe }
    | _ => s
  | .serverStopped =>
    match s.pc with
    | .listenAndServe => { s with pc := .receive }
    | _ => s
  | .accept c =>
    match s.pc with
    | .listenAndServe => { s with t := register s.t c }
    | _ => s
  | .offer v =>
    match s.pc with
    | .receive =>
      let t1 := { s.t with lastAvg := v }
      let r := broadcastTickerUpdate net t1 v
      { s with t := r.1, received := s.received ++ [v], writes := s.writes ++ r.2 }
    | _ => s

/-- `Start` on a server just created, followed by the given events. -/
def startRun (net : Net) (events : List Event) : StartState :=
  events.foldl (startStep net) ⟨.handleFunc, CreateWSServer, [], []⟩

end Server

/-! ## Rounding is exact on small counts -/

namespace F64

theorem goEq_eq {a b : F64} (h : goEq a b = true) : a = b := by
  cases a <;> simp [goEq] at h <;> exact h

theorem goEq_ne_nan {a b : F64} (h : goEq a b = true) : a ≠ nan := by
  cases a <;> simp [goEq] at h <;> simp

theorem goEq_self {a : F64} (h : a ≠ nan) : goEq a a = true := by
  cases a <;> simp [goEq] at h ⊢

theorem goEq_comm (a b : F64) : goEq a b = goEq b a := by
  cases a <;> cases b <;> simp [goEq, eq_comm]

theorem goEq_nan_right (a : F64) : goEq a nan = false := by
  cases a <;> simp [goEq]

end F64

namespace GoMap

theorem hasKey_cons (k' v' : F64) (m : GoMap) (k : F64) :
    hasKey ((k', v') :: m) k = (F64.goEq k' k || hasKey m k) := by
  simp [hasKey]

theorem length_set (m : GoMap) (k v : F64) :
    (set m k v).length = if hasKey m k then m.length else m.length + 1 := by
  induction m with
  | nil => simp [set, hasKey]
  | cons e m ih =>
    obtain ⟨k', v'⟩ := e
    by_cases h : F64.goEq k' k = true
    · simp [set, hasKey_cons, h]
    · simp only [Bool.not_eq_true] at h
      rw [hasKey_cons, h, Bool.false_or]
      simp only [set, h, Bool.false_eq_true, if_false, List.length_cons, ih]
      split <;> rfl

theorem length_le_set (m : GoMap) (k v : F64) : m.length ≤ (set m k v).length := by
  rw [length_set]; split <;> omega

theorem mem_set_self (m : GoMap) (k v : F64) : (k, v) ∈ set m k v := by
  induction m with
  | nil => simp [set]
  | cons e m ih =>
    obtain ⟨k', v'⟩ := e
    by_cases h : F64.goEq k' k = true
    · simp [set, h]
    · simp [set, h, ih]

theorem mem_set_of_mem {m : GoMap} {e : F64 × F64} (k v : F64) (he : e ∈ m)
    (hne : F64.goEq e.1 k = false) : e ∈ set m k v := by
  induction m with
  | nil => simp at he
  | cons e' m ih =>
    obtain ⟨k', v'⟩ := e'
    by_cases h : F64.goEq k' k = true
    · rcases List.mem_cons.1 he with rfl | he'
      · simp [h] at hne
      · simp [set, h, he']
    · rcases List.mem_cons.1 he with rfl | he'
      · simp [set, h]
      · simp [set, h, ih he']

theorem keys_set (m : GoMap) (k v : F64) :
    keys (set m k v) = if hasKey m k then keys m else keys m ++ [k] := by
  induction m with
  | nil => simp [set, hasKey, keys]
  | cons e m ih =>
    obtain ⟨k', v'⟩ := e
    by_cases h : F64.goEq k' k = true
    · have hkk := F64.goEq_eq h
      subst hkk
      simp [set, hasKey_cons, keys, h]
    · simp only [Bool.not_eq_true] at h
      rw [hasKey_cons, h, Bool.false_or]
      simp only [set, h, Bool.false_eq_true, if_false]
      show k' :: keys (set m k v) = _
      rw [ih]
      split <;> simp [keys]

theorem keys_subset_set {m : GoMap} {k' : F64} (k v : F64) (h : k' ∈ keys m) :
    k' ∈ keys (set m k v) := by
  rw [keys_set]; split
  · exact h
  · exact List.mem_append_left _ h

theorem hasKey_set (m : GoMap) (k v k' : F64) :
    hasKey (set m k v) k' = (F64.goEq k k' || hasKey m k') := by
  induction m with
  | nil => simp [set, hasKey]
  | cons e m ih =>
    obtain ⟨k₁, v₁⟩ := e
    by_cases h : F64.goEq k₁ k = true
    · have := F64.goEq_eq h
      subst this
      simp [set, hasKey_cons, h]
    · simp only [Bool.not_eq_true] at h
      simp only [set, h, Bool.false_eq_true, if_false, hasKey_cons, ih]
      cases F64.goEq k₁ k' <;> cases F64.goEq k k' <;> simp

theorem get?_set_self (m : GoMap) {k : F64} (v : F64) (hk : k ≠ F64.nan) :
    get? (set m k v) k = some v := by
  induction m with
  | nil => simp [set, get?, F64.goEq_self hk]
  | cons e m ih =>
    obtain ⟨k', v'⟩ := e
    by_cases h : F64.goEq k' k = true
    · simp [set, get?, h, F64.goEq_self hk]
    · simp [set, get?, h, ih]

theorem get?_set_of_ne (m : GoMap) {k k' : F64} (v : F64) (hne : F64.goEq k k' = false) :
    get? (set m k v) k' = get? m k' := by
  induction m with
  | nil => simp [set, get?, hne]
  | cons e m ih =>
    obtain ⟨k₁, v₁⟩ := e
    by_cases h : F64.goEq k₁ k = true
    · have := F64.goEq_eq h
      subst this
      simp [set, get?, h, hne]
    · simp only [Bool.not_eq_true] at h
      simp [set, get?, h, ih]

theorem get?_isSome_of_hasKey {m : GoMap} {k : F64} (h : hasKey m k = true) :
    ∃ v, get? m k = some v := by
  induction m with
  | nil => simp [hasKey] at h
  | cons e m ih =>
    obtain ⟨k', v'⟩ := e
    by_cases h' : F64.goEq k' k = true
    · exact ⟨v', by simp [get?, h']⟩
    · simp only [Bool.not_eq_true] at h'
      have : hasKey m k = true := by simpa [hasKey, h'] using h
      obtain ⟨v, hv⟩ := ih this
      exact ⟨v, by simp [get?, h', hv]⟩

theorem ne_nan_of_hasKey {m : GoMap} {k : F64} (h : hasKey m k = true) : k ≠ F64.nan := by
  rintro rfl
  simp [hasKey, F64.goEq_nan_right] at h

theorem WF_set {m : GoMap} (k v : F64) (h : WF m) : WF (set m k v) := by
  induction m with
  | nil => simp [set, WF]
  | cons e m ih =>
    obtain ⟨k', v'⟩ := e
    have hm : WF m := (List.pairwise_cons.1 h).2
    have hhd := (List.pairwise_cons.1 h).1
    by_cases hk : F64.goEq k' k = true
    · have := F64.goEq_eq hk
      subst this
      simpa [set, hk, WF] using h
    · simp only [Bool.not_eq_true] at hk
      simp only [set, hk, WF]
      refine List.pairwise_cons.2 ⟨?_, ih hm⟩
      intro b hb
      have hb' : b.1 ∈ keys (set m k v) := List.mem_map_of_mem _ hb
      rw [keys_set] at hb'
      have hmem : b.1 ∈ keys m ∨ b.1 = k := by
        split at hb'
        · exact Or.inl hb'
        · rcases List.mem_append.1 hb' with h1 | h1
          · exact Or.inl h1
          · exact Or.inr (by simpa using h1)
      rcases hmem with h1 | h1
      · obtain ⟨b', hb'm, hb'e⟩ := List.mem_map.1 h1
        have := hhd b' hb'm
        simpa [hb'e] using this
      · simpa [h1] using hk

end GoMap

namespace Binance

/-! ## Facts about `updateOrderBook` -/

theorem applyLevels_nil (m : GoMap) : applyLevels m [] = m := rfl

theorem applyLevels_cons (m : GoMap) (x : OrderBookEntry) (l : List OrderBookEntry) :
    applyLevels m (x :: l) = applyLevels (GoMap.set m x.price x.qty) l := rfl

theorem applyLevels_append (m : GoMap) (l₁ l₂ : List OrderBookEntry) :
    applyLevels m (l₁ ++ l₂) = applyLevels (applyLevels m l₁) l₂ := by
  simp [applyLevels, List.foldl_append]

theorem mem_applyLevels_of_mem {e : F64 × F64} (l : List OrderBookEntry) :
    ∀ {m : GoMap}, e ∈ m → (∀ x ∈ l, F64.goEq x.price e.1 = false) → e ∈ applyLevels m l := by
  induction l with
  | nil => intro m he _; exact he
  | cons x l ih =>
    intro m he hne
    rw [applyLevels_cons]
    refine ih (GoMap.mem_set_of_mem _ _ he ?_) (fun y hy => hne y (List.mem_cons_of_mem _ hy))
    rw [F64.goEq_comm]
    exact hne x (List.mem_cons_self _ _)

theorem get?_applyLevels_of_ne {k : F64} (l : List OrderBookEntry) :
    ∀ (m : GoMap), (∀ x ∈ l, F64.goEq x.price k = false) →
      GoMap.get? (applyLevels m l) k = GoMap.get? m k := by
  induction l with
  | nil => intro m _; rfl
  | cons x l ih =>
    intro m hne
    rw [applyLevels_cons, ih _ (fun y hy => hne y (List.mem_cons_of_mem _ hy)),
      GoMap.get?_set_of_ne _ _ (hne x (List.mem_cons_self _ _))]

theorem stored_of_lastFor (m : GoMap) {l : List OrderBookEntry} {item : OrderBookEntry}
    (h : LastFor l item) : Stored (applyLevels m l) item := by
  obtain ⟨l₁, l₂, rfl, hl₂⟩ := h
  rw [applyLevels_append, applyLevels_cons]
  constructor
  · exact mem_applyLevels_of_mem l₂ (GoMap.mem_set_self _ _ _) hl₂
  · intro hk
    rw [get?_applyLevels_of_ne l₂ _ hl₂, GoMap.get?_set_self _ _ hk]

theorem length_le_applyLevels (l : List OrderBookEntry) :
    ∀ (m : GoMap), m.length ≤ (applyLevels m l).length := by
  induction l with
  | nil => intro m; exact Nat.le_refl _
  | cons x l ih =>
    intro m
    rw [applyLevels_cons]
    exact Nat.le_trans (GoMap.length_le_set m _ _) (ih _)

theorem keys_subset_applyLevels {k : F64} (l : List OrderBookEntry) :
    ∀ {m : GoMap}, k ∈ GoMap.keys m → k ∈ GoMap.keys (applyLevels m l) := by
  induction l with
  | nil => intro m h; exact h
  | cons x l ih =>
    intro m h
    rw [applyLevels_cons]
    exact ih (GoMap.keys_subset_set _ _ h)

theorem price_mem_keys_applyLevels (l : List OrderBookEntry) :
    ∀ (m : GoMap), ∀ item ∈ l, item.price ∈ GoMap.keys (applyLevels m l) := by
  induction l with
  | nil => intro m item h; simp at h
  | cons x l ih =>
    intro m item h
    rw [applyLevels_cons]
    rcases List.mem_cons.1 h with rfl | h'
    · exact keys_subset_applyLevels l (List.mem_map_of_mem Prod.fst (GoMap.mem_set_self m _ _))
    · exact ih _ item h'

theorem WF_applyLevels (l : List OrderBookEntry) :
    ∀ {m : GoMap}, GoMap.WF m → GoMap.WF (applyLevels m l) := by
  induction l with
  | nil => intro m h; exact h
  | cons x l ih =>
    intro m h
    rw [applyLevels_cons]
    exact ih (GoMap.WF_set _ _ h)

theorem keys_applyLevels_of_hasKey (l : List OrderBookEntry) :
    ∀ (m : GoMap), (∀ e ∈ l, GoMap.hasKey m e.price = true) →
      GoMap.keys (applyLevels m l) = GoMap.keys m := by
  induction l with
  | nil => intro m _; rfl
  | cons x l ih =>
    intro m h
    have hx := h x (List.mem_cons_self _ _)
    rw [applyLevels_cons, ih, GoMap.keys_set, if_pos hx]
    intro e he
    rw [GoMap.hasKey_set, h e (List.mem_cons_of_mem _ he), Bool.or_true]

theorem length_eq_of_keys_eq {m m' : GoMap} (h : GoMap.keys m' = GoMap.keys m) :
    m'.length = m.length := by
  have := congrArg List.length h
  simpa [GoMap.keys] using this

end Binance

namespace GoMap

theorem set_of_not_hasKey {m : GoMap} {k : F64} (v : F64) (h : hasKey m k = false) :
    set m k v = m ++ [(k, v)] := by
  induction m with
  | nil => rfl
  | cons e m ih =>
    obtain ⟨k', v'⟩ := e
    rw [hasKey_cons, Bool.or_eq_false_iff] at h
    simp [set, h.1, ih h.2]

theorem set_of_mem {m : GoMap} {k v : F64} (hwf : WF m) (h : (k, v) ∈ m) (hk : k ≠ F64.nan) :
    set m k v = m := by
  induction m with
  | nil => simp at h
  | cons e m ih =>
    obtain ⟨k', v'⟩ := e
    have hhd := (List.pairwise_cons.1 hwf).1
    rcases List.mem_cons.1 h with heq | hm
    · have h1 : k' = k := (congrArg Prod.fst heq).symm
      have h2 : v' = v := (congrArg Prod.snd heq).symm
      subst h1; subst h2
      simp [set, F64.goEq_self hk]
    · have hne : F64.goEq k' k = false := hhd (k, v) hm
      simp [set, hne, ih (List.pairwise_cons.1 hwf).2 hm]

end GoMap

namespace Binance

/-- C2, as stated, fails: with the price 1 twice in one ask list, the pair (1, 2) is a pair of
the update, yet after `updateOrderBook` the lookup `Asks[1]` gives 3 and (1, 2) is no entry. -/
theorem updateOrderBook_repeated_price_drops_pair :
    (⟨F64.fin 1, F64.fin 2⟩ : OrderBookEntry) ∈
        (⟨[⟨F64.fin 1, F64.fin 2⟩, ⟨F64.fin 1, F64.fin 3⟩], []⟩ : DepthUpdate).Asks ∧
      GoMap.get? (updateOrderBook OrderBook.empty
        ⟨[⟨F64.fin 1, F64.fin 2⟩, ⟨F64.fin 1, F64.fin 3⟩], []⟩).Asks (F64.fin 1)
        = some (F64.fin 3) ∧
      (F64.fin 1, F64.fin 2) ∉ (updateOrderBook OrderBook.empty
        ⟨[⟨F64.fin 1, F64.fin 2⟩, ⟨F64.fin 1, F64.fin 3⟩], []⟩).Asks := by
  decide

/-- C2, amended: after `updateOrderBook`, every level of the update's ask list that is the
last one of that list for its price is stored in `Asks` (it is an entry, and `Asks[price]`
is its quantity unless the price is NaN), and likewise for the bid list and `Bids`. -/
theorem updateOrderBook_stores_last_levels (c : OrderBook) (u : DepthUpdate)
    (item : OrderBookEntry) :
    (LastFor u.Asks item → Stored (updateOrderBook c u).Asks item) ∧
      (LastFor u.Bids item → Stored (updateOrderBook c u).Bids item) :=
  ⟨fun h => stored_of_lastFor c.Asks h, fun h => stored_of_lastFor c.Bids h⟩

/-- Witness for C2: the update with asks (1, 2), (1, 3) and the bid (NaN, 4) on the empty
cache. -/
theorem updateOrderBook_stores_last_levels_witness :
    LastFor (⟨[⟨F64.fin 1, F64.fin 2⟩, ⟨F64.fin 1, F64.fin 3⟩], [⟨F64.nan, F64.fin 4⟩]⟩ :
        DepthUpdate).Asks ⟨F64.fin 1, F64.fin 3⟩ ∧
      Stored (updateOrderBook OrderBook.empty
        ⟨[⟨F64.fin 1, F64.fin 2⟩, ⟨F64.fin 1, F64.fin 3⟩], [⟨F64.nan, F64.fin 4⟩]⟩).Asks
        ⟨F64.fin 1, F64.fin 3⟩ ∧
      Stored (updateOrderBook OrderBook.empty
        ⟨[⟨F64.fin 1, F64.fin 2⟩, ⟨F64.fin 1, F64.fin 3⟩], [⟨F64.nan, F64.fin 4⟩]⟩).Bids
        ⟨F64.nan, F64.fin 4⟩ :=
  have hA : LastFor (⟨[⟨F64.fin 1, F64.fin 2⟩, ⟨F64.fin 1, F64.fin 3⟩],
      [⟨F64.nan, F64.fin 4⟩]⟩ : DepthUpdate).Asks ⟨F64.fin 1, F64.fin 3⟩ :=
    ⟨[⟨F64.fin 1, F64.fin 2⟩], [], rfl, by simp⟩
  have hB : LastFor (⟨[⟨F64.fin 1, F64.fin 2⟩, ⟨F64.fin 1, F64.fin 3⟩],
      [⟨F64.nan, F64.fin 4⟩]⟩ : DepthUpdate).Bids ⟨F64.nan, F64.fin 4⟩ :=
    ⟨[], [], rfl, by simp⟩
  ⟨hA, (updateOrderBook_stores_last_levels _ _ _).1 hA,
    (updateOrderBook_stores_last_levels _ _ _).2 hB⟩

/-- C7: when every price of the update is already a key on its side, `updateOrderBook`
keeps the keys (and so their number) of each side as they were, makes `Asks[price]` /
`Bids[price]` the quantity of the last level for that price, and the keys of each side
stay pairwise different under `==`. -/
theorem updateOrderBook_overwrite_existing (c : OrderBook) (u : DepthUpdate)
    (hA : GoMap.WF c.Asks) (hB : GoMap.WF c.Bids)
    (hka : ∀ e ∈ u.Asks, GoMap.hasKey c.Asks e.price = true)
    (hkb : ∀ e ∈ u.Bids, GoMap.hasKey c.Bids e.price = true) :
    (GoMap.keys (updateOrderBook c u).Asks = GoMap.keys c.Asks ∧
      GoMap.keys (updateOrderBook c u).Bids = GoMap.keys c.Bids) ∧
    ((updateOrderBook c u).Asks.length = c.Asks.length ∧
      (updateOrderBook c u).Bids.length = c.Bids.length) ∧
    (GoMap.WF (updateOrderBook c u).Asks ∧ GoMap.WF (updateOrderBook c u).Bids) ∧
    (∀ item, LastFor u.Asks item →
      GoMap.get? (updateOrderBook c u).Asks item.price = some item.qty) ∧
    (∀ item, LastFor u.Bids item →
      GoMap.get? (updateOrderBook c u).Bids item.price = some item.qty) := by
  have kA := keys_applyLevels_of_hasKey u.Asks c.Asks hka
  have kB := keys_applyLevels_of_hasKey u.Bids c.Bids hkb
  refine ⟨⟨kA, kB⟩, ⟨length_eq_of_keys_eq kA, length_eq_of_keys_eq kB⟩,
    ⟨WF_applyLevels _ hA, WF_applyLevels _ hB⟩, ?_, ?_⟩
  · intro item h
    obtain ⟨l₁, l₂, hl, _⟩ := id h
    have hmem : item ∈ u.Asks := by rw [hl]; simp
    exact (stored_of_lastFor c.Asks h).2 (GoMap.ne_nan_of_hasKey (hka item hmem))
  · intro item h
    obtain ⟨l₁, l₂, hl, _⟩ := id h
    have hmem : item ∈ u.Bids := by rw [hl]; simp
    exact (stored_of_lastFor c.Bids h).2 (GoMap.ne_nan_of_hasKey (hkb item hmem))

/-- Witness for C7: asks 10, 20 and bid 30 cached, the update overwrites 10 twice and 30
once. -/
theorem updateOrderBook_overwrite_existing_witness :
    (updateOrderBook ⟨[(F64.fin 10, F64.fin 1), (F64.fin 20, F64.fin 1)], [(F64.fin 30, F64.fin 2)]⟩
        ⟨[⟨F64.fin 10, F64.fin 5⟩, ⟨F64.fin 10, F64.fin 7⟩], [⟨F64.fin 30, F64.fin 0⟩]⟩).Asks.length = 2 ∧
      GoMap.get? (updateOrderBook
        ⟨[(F64.fin 10, F64.fin 1), (F64.fin 20, F64.fin 1)], [(F64.fin 30, F64.fin 2)]⟩
        ⟨[⟨F64.fin 10, F64.fin 5⟩, ⟨F64.fin 10, F64.fin 7⟩], [⟨F64.fin 30, F64.fin 0⟩]⟩).Asks
        (F64.fin 10) = some (F64.fin 7) :=
  have h := updateOrderBook_overwrite_existing
    ⟨[(F64.fin 10, F64.fin 1), (F64.fin 20, F64.fin 1)], [(F64.fin 30, F64.fin 2)]⟩
    ⟨[⟨F64.fin 10, F64.fin 5⟩, ⟨F64.fin 10, F64.fin 7⟩], [⟨F64.fin 30, F64.fin 0⟩]⟩
    (by unfold GoMap.WF; decide) (by unfold GoMap.WF; decide) (by decide) (by decide)
  ⟨h.2.1.1, h.2.2.2.1 ⟨F64.fin 10, F64.fin 7⟩ ⟨[⟨F64.fin 10, F64.fin 5⟩], [], rfl, by simp⟩⟩

/-- C8: `updateOrderBook` never removes: every key of a side is still a key of that side
afterwards, the number of entries of a side never decreases, every price of the update is a
key of its side afterwards, and a last level with quantity 0 is stored as an entry with
quantity 0. -/
theorem updateOrderBook_never_removes (c : OrderBook) (u : DepthUpdate) :
    ((∀ k, k ∈ GoMap.keys c.Asks → k ∈ GoMap.keys (updateOrderBook c u).Asks) ∧
      (∀ k, k ∈ GoMap.keys c.Bids → k ∈ GoMap.keys (updateOrderBook c u).Bids)) ∧
    (c.Asks.length ≤ (updateOrderBook c u).Asks.length ∧
      c.Bids.length ≤ (updateOrderBook c u).Bids.length) ∧
    ((∀ item, item ∈ u.Asks → item.price ∈ GoMap.keys (updateOrderBook c u).Asks) ∧
      (∀ item, item ∈ u.Bids → item.price ∈ GoMap.keys (updateOrderBook c u).Bids)) ∧
    ((∀ item, LastFor u.Asks item → item.qty = F64.fin 0 →
        (item.price, F64.fin 0) ∈ (updateOrderBook c u).Asks) ∧
      (∀ item, LastFor u.Bids item → item.qty = F64.fin 0 →
        (item.price, F64.fin 0) ∈ (updateOrderBook c u).Bids)) := by
  refine ⟨⟨fun k h => keys_subset_applyLevels u.Asks h,
      fun k h => keys_subset_applyLevels u.Bids h⟩,
    ⟨length_le_applyLevels u.Asks c.Asks, length_le_applyLevels u.Bids c.Bids⟩,
    ⟨price_mem_keys_applyLevels u.Asks c.Asks, price_mem_keys_applyLevels u.Bids c.Bids⟩,
    ?_, ?_⟩
  · intro item h hq
    have := (stored_of_lastFor c.Asks h).1
    rwa [hq] at this
  · intro item h hq
    have := (stored_of_lastFor c.Bids h).1
    rwa [hq] at this

/-- Witness for C8: zero-quantity levels for the cached ask 10 and the new bid 31. -/
theorem updateOrderBook_never_removes_witness :
    F64.fin 20 ∈ GoMap.keys (updateOrderBook
        ⟨[(F64.fin 10, F64.fin 1), (F64.fin 20, F64.fin 1)], [(F64.fin 30, F64.fin 2)]⟩
        ⟨[⟨F64.fin 10, F64.fin 0⟩], [⟨F64.fin 31, F64.fin 0⟩]⟩).Asks ∧
      (F64.fin 10, F64.fin 0) ∈ (updateOrderBook
        ⟨[(F64.fin 10, F64.fin 1), (F64.fin 20, F64.fin 1)], [(F64.fin 30, F64.fin 2)]⟩
        ⟨[⟨F64.fin 10, F64.fin 0⟩], [⟨F64.fin 31, F64.fin 0⟩]⟩).Asks ∧
      F64.fin 31 ∈ GoMap.keys (updateOrderBook
        ⟨[(F64.fin 10, F64.fin 1), (F64.fin 20, F64.fin 1)], [(F64.fin 30, F64.fin 2)]⟩
        ⟨[⟨F64.fin 10, F64.fin 0⟩], [⟨F64.fin 31, F64.fin 0⟩]⟩).Bids :=
  have h := updateOrderBook_never_removes
    ⟨[(F64.fin 10, F64.fin 1), (F64.fin 20, F64.fin 1)], [(F64.fin 30, F64.fin 2)]⟩
    ⟨[⟨F64.fin 10, F64.fin 0⟩], [⟨F64.fin 31, F64.fin 0⟩]⟩
  ⟨h.1.1 (F64.fin 20) (by decide),
    h.2.2.2.1 ⟨F64.fin 10, F64.fin 0⟩ ⟨[], [], rfl, by simp⟩ rfl,
    h.2.2.1.2 ⟨F64.fin 31, F64.fin 0⟩ (by decide)⟩

/-- C10, as stated, fails: applying the update whose only level is the zero-value level to
the empty cache adds the key 0, and the metric goes from NaN to 0; on the cache with the
single ask key 10 the metric goes from 10 to 5; the frame whose only level is `null` does
the former through `processUpdate`. -/
theorem zero_level_is_not_a_noop :
    updateOrderBook OrderBook.empty ⟨[OrderBookEntry.zero], []⟩ ≠ OrderBook.empty ∧
      processUpdate goLib OrderBook.empty "\x7b\"a\":[null]\x7d"
        = .ret (⟨[(F64.fin 0, F64.fin 0)], []⟩, some (F64.fin 0)) ∧
      calculateAvg OrderBook.empty = F64.nan ∧
      calculateAvg (updateOrderBook OrderBook.empty ⟨[OrderBookEntry.zero], []⟩) = F64.fin 0 ∧
      calculateAvg ⟨[(F64.fin 10, F64.fin 1)], []⟩ = F64.fin 10 ∧
      calculateAvg (updateOrderBook ⟨[(F64.fin 10, F64.fin 1)], []⟩
        ⟨[OrderBookEntry.zero], []⟩) = F64.fin 5 := by
  decide!

/-- C10, amended: applying an update whose only level is the zero-value level assigns
quantity 0 to the key 0 on that level's side and leaves the other side as it was; the side
gains the entry (0, 0) when 0 was not a key of it, and the cache is unchanged when the side
already held the entry (0, 0). -/
theorem zero_level_upserts_key_zero (c : OrderBook) :
    ((updateOrderBook c ⟨[OrderBookEntry.zero], []⟩).Bids = c.Bids ∧
      GoMap.get? (updateOrderBook c ⟨[OrderBookEntry.zero], []⟩).Asks (F64.fin 0)
        = some (F64.fin 0) ∧
      (GoMap.hasKey c.Asks (F64.fin 0) = false →
        (updateOrderBook c ⟨[OrderBookEntry.zero], []⟩).Asks
          = c.Asks ++ [(F64.fin 0, F64.fin 0)]) ∧
      (GoMap.WF c.Asks → (F64.fin 0, F64.fin 0) ∈ c.Asks →
        updateOrderBook c ⟨[OrderBookEntry.zero], []⟩ = c)) ∧
    ((updateOrderBook c ⟨[], [OrderBookEntry.zero]⟩).Asks = c.Asks ∧
      GoMap.get? (updateOrderBook c ⟨[], [OrderBookEntry.zero]⟩).Bids (F64.fin 0)
        = some (F64.fin 0) ∧
      (GoMap.hasKey c.Bids (F64.fin 0) = false →
        (updateOrderBook c ⟨[], [OrderBookEntry.zero]⟩).Bids
          = c.Bids ++ [(F64.fin 0, F64.fin 0)]) ∧
      (GoMap.WF c.Bids → (F64.fin 0, F64.fin 0) ∈ c.Bids →
        updateOrderBook c ⟨[], [OrderBookEntry.zero]⟩ = c)) := by
  have h0 : (F64.fin 0) ≠ F64.nan := by simp
  refine ⟨⟨rfl, GoMap.get?_set_self _ _ h0, fun h => GoMap.set_of_not_hasKey _ h, ?_⟩,
    ⟨rfl, GoMap.get?_set_self _ _ h0, fun h => GoMap.set_of_not_hasKey _ h, ?_⟩⟩
  · intro hwf hmem
    show OrderBook.mk (GoMap.set c.Asks (F64.fin 0) (F64.fin 0)) c.Bids = c
    rw [GoMap.set_of_mem hwf hmem h0]
  · intro hwf hmem
    show OrderBook.mk c.Asks (GoMap.set c.Bids (F64.fin 0) (F64.fin 0)) = c
    rw [GoMap.set_of_mem hwf hmem h0]

/-- Witness for C10: the ask side without key 0 gains it, the bid side holding (0, 0) is
left as it is. -/
theorem zero_level_upserts_key_zero_witness :
    (updateOrderBook ⟨[(F64.fin 10, F64.fin 1)], [(F64.fin 0, F64.fin 0)]⟩
        ⟨[OrderBookEntry.zero], []⟩).Asks = [(F64.fin 10, F64.fin 1), (F64.fin 0, F64.fin 0)] ∧
      updateOrderBook ⟨[(F64.fin 10, F64.fin 1)], [(F64.fin 0, F64.fin 0)]⟩
        ⟨[], [OrderBookEntry.zero]⟩ = ⟨[(F64.fin 10, F64.fin 1)], [(F64.fin 0, F64.fin 0)]⟩ :=
  have h := zero_level_upserts_key_zero
    ⟨[(F64.fin 10, F64.fin 1)], [(F64.fin 0, F64.fin 0)]⟩
  ⟨h.1.2.2.1 (by decide), h.2.2.2.2 (by unfold GoMap.WF; decide) (by decide)⟩

/-! ## The metric -/

/-- C1, as stated, fails: on the empty cache `calculateAvg` returns NaN as an ordinary
value, where the specification's `computeMetric` gives the empty-book error, and
`processUpdate` on the frame `{}` sends that NaN on `AvgUpdate`. -/
theorem calculateAvg_empty_returns_nan :
    calculateAvg OrderBook.empty = F64.nan ∧
      F64.isFinite (calculateAvg OrderBook.empty) = false ∧
      specComputeMetric OrderBook.empty = none ∧
      processUpdate goLib OrderBook.empty "\x7b\x7d" = .ret (OrderBook.empty, some F64.nan) := by
  decide!

/-- C1, amended: on a cache with no ask key and no bid key `calculateAvg` returns NaN (the
quotient 0.0 / 0) as an ordinary value, and a frame that decodes to an update without
levels makes `processUpdate` send that NaN on `AvgUpdate`; no empty-book error exists. -/
theorem calculateAvg_of_empty (lib : GoLib) (c : OrderBook) (message : String)
    (hA : c.Asks = []) (hB : c.Bids = [])
    (hm : unmarshalDepthUpdate lib message = .ret (.ok ⟨[], []⟩)) :
    calculateAvg c = F64.nan ∧ processUpdate lib c message = .ret (c, some F64.nan) := by
  have h : calculateAvg c = F64.nan := by
    obtain ⟨asks, bids⟩ := c
    simp only at hA hB
    subst hA; subst hB
    decide!
  have hu : updateOrderBook c ⟨[], []⟩ = c := rfl
  refine ⟨h, ?_⟩
  simp only [processUpdate, hm, hu, h]

/-- Witness for C1: a frame without levels on the empty cache. -/
theorem calculateAvg_of_empty_witness :
    calculateAvg OrderBook.empty = F64.nan ∧
      processUpdate goLib OrderBook.empty "\x7b\"e\":\"depthUpdate\"\x7d"
        = .ret (OrderBook.empty, some F64.nan) :=
  calculateAvg_of_empty goLib OrderBook.empty "\x7b\"e\":\"depthUpdate\"\x7d" rfl rfl (by decide!)

/-- C4: a two-element array of numeric strings `[p, q]` decodes to the level with price the
value of `p` and quantity the value of `q` and no error; `null` and the empty string
literal return no error and leave the level as it was, at its zero value for a fresh
level. -/
theorem UnmarshalJSON_decodes_level (lib : GoLib) (o : OrderBookEntry) (data p q : String)
    (x y : F64) (hnull : data ≠ "null") (hempty : data ≠ "\"\"")
    (hc : lib.unmarshalStrings data = .ok [p, q])
    (hp : lib.parseFloat p = .ok x) (hq : lib.parseFloat q = .ok y) :
    UnmarshalJSON lib o data = .ret (⟨x, y⟩, none) ∧
      UnmarshalJSON lib o "null" = .ret (o, none) ∧
      UnmarshalJSON lib o "\"\"" = .ret (o, none) ∧
      UnmarshalJSON lib OrderBookEntry.zero "null" = .ret (⟨F64.fin 0, F64.fin 0⟩, none) ∧
      UnmarshalJSON lib OrderBookEntry.zero "\"\"" = .ret (⟨F64.fin 0, F64.fin 0⟩, none) := by
  refine ⟨?_, ?_, ?_, ?_, ?_⟩
  · simp [UnmarshalJSON, hnull, hempty, hc, hp, hq]
  · simp [UnmarshalJSON]
  · simp [UnmarshalJSON]
  · simp [UnmarshalJSON, OrderBookEntry.zero]
  · simp [UnmarshalJSON, OrderBookEntry.zero]

/-- Witness for C4: the array of the strings 1.23 and 4.56. -/
theorem UnmarshalJSON_decodes_level_witness :
    UnmarshalJSON goLib OrderBookEntry.zero "[\"1.23\",\"4.56\"]"
      = .ret (⟨roundQ (123 / 100), roundQ (456 / 100)⟩, none) :=
  (UnmarshalJSON_decodes_level goLib OrderBookEntry.zero "[\"1.23\",\"4.56\"]" "1.23" "4.56"
    (roundQ (123 / 100)) (roundQ (456 / 100)) (by decide) (by decide)
    (by decide!) (by decide!) (by decide!)).1

/-- C5, where the code departs from it: an array that decodes to fewer than two strings,
each of them numeric, makes `UnmarshalJSON` panic on an out-of-range index instead of
returning an error, and a frame whose first level is such an array makes `processUpdate`
panic instead of dropping the message. -/
theorem UnmarshalJSON_short_array_panics (lib : GoLib) (o : OrderBookEntry) (c : OrderBook)
    (data message : String) (content : List String) (side : Side)
    (rest : List (Side × String)) (typeErr : Option String)
    (hnull : data ≠ "null") (hempty : data ≠ "\"\"")
    (hc : lib.unmarshalStrings data = .ok content) (hlen : content.length < 2)
    (hnum : ∀ s ∈ content, ∃ x, lib.parseFloat s = .ok x)
    (hw : lib.walkDepthUpdate message = .ok ⟨(side, data) :: rest, typeErr⟩) :
    ∃ msg, UnmarshalJSON lib o data = .panic msg ∧ processUpdate lib c message = .panic msg := by
  have key : ∀ o', ∃ msg, UnmarshalJSON lib o' data = .panic msg ∧
      (content = [] → msg = "runtime error: index out of range [0] with length 0") ∧
      (content ≠ [] → msg = "runtime error: index out of range [1] with length 1") := by
    intro o'
    match content, hc, hlen, hnum with
    | [], hc, _, _ =>
      exact ⟨_, by simp [UnmarshalJSON, hnull, hempty, hc], fun _ => rfl, fun h => absurd rfl h⟩
    | [s], hc, _, hnum =>
      obtain ⟨x, hx⟩ := hnum s (by simp)
      exact ⟨_, by simp [UnmarshalJSON, hnull, hempty, hc, hx], fun h => by simp at h, fun _ => rfl⟩
    | _ :: _ :: _, _, hlen, _ => simp at hlen; omega
  obtain ⟨msg, h1, ha, hb⟩ := key o
  obtain ⟨msg', h2, ha', hb'⟩ := key OrderBookEntry.zero
  have hmsg : msg' = msg := by
    by_cases hcn : content = []
    · rw [ha hcn, ha' hcn]
    · rw [hb hcn, hb' hcn]
  subst hmsg
  refine ⟨msg', h1, ?_⟩
  simp [processUpdate, unmarshalDepthUpdate, hw, decodeLevels, h2]

/-- Witness for C5: the empty array as the first level of a frame; the one-element array
panics on the second index. -/
theorem UnmarshalJSON_short_array_panics_witness :
    (∃ msg, UnmarshalJSON goLib OrderBookEntry.zero "[]" = .panic msg ∧
      processUpdate goLib OrderBook.empty "\x7b\"a\":[[],[\"1\",\"2\"]]\x7d" = .panic msg) ∧
    UnmarshalJSON goLib OrderBookEntry.zero "[]"
      = .panic "runtime error: index out of range [0] with length 0" ∧
    UnmarshalJSON goLib OrderBookEntry.zero "[\"1.0\"]"
      = .panic "runtime error: index out of range [1] with length 1" ∧
    processUpdate goLib OrderBook.empty "\x7b\"a\":[[]]\x7d"
      = .panic "runtime error: index out of range [0] with length 0" :=
  ⟨UnmarshalJSON_short_array_panics goLib OrderBookEntry.zero OrderBook.empty "[]"
      "\x7b\"a\":[[],[\"1\",\"2\"]]\x7d" [] Side.ask [(Side.ask, "[\"1\",\"2\"]")] none
      (by decide) (by decide) (by decide!) (by decide) (by simp) (by decide!),
    by decide!, by decide!, by decide!⟩

theorem processUpdate_drops_on_error (lib : GoLib) (c : OrderBook) (message err : String)
    (h : unmarshalDepthUpdate lib message = .ret (.error err)) :
    processUpdate lib c message = .ret (c, none) := by
  simp [processUpdate, h]

end Binance

namespace Server

/-! ## The publisher -/

theorem broadcast_foldl (net : Net) (value : F64) (cs : List Conn) :
    ∀ (t : TickerServer) (ws : List Write),
      cs.foldl
          (fun (acc : TickerServer × List Write) c =>
            (acc.1, acc.2 ++ [⟨c, 1, net.formatFloat value, net.writeFails c⟩]))
          (t, ws)
        = (t, ws ++ cs.map (fun c => ⟨c, 1, net.formatFloat value, net.writeFails c⟩)) := by
  induction cs with
  | nil => intro t ws; simp
  | cons c cs ih => intro t ws; simp [ih]

/-- C6, as stated, fails: with subscribers 1, 2, 3 registered and the write to 2 failing,
2 is still in `clients` after `broadcastTickerUpdate`. -/
theorem broadcast_keeps_failed_subscriber :
    (2 : Conn) ∈ (broadcastTickerUpdate ⟨fun _ => "20", fun c => decide (c = 2)⟩
        ⟨F64.fin 0, [1, 2, 3]⟩ (F64.fin 20)).1.clients ∧
      (⟨2, 1, "20", true⟩ : Write) ∈ (broadcastTickerUpdate
        ⟨fun _ => "20", fun c => decide (c = 2)⟩ ⟨F64.fin 0, [1, 2, 3]⟩ (F64.fin 20)).2 := by
  decide

/-- C6, amended: `broadcastTickerUpdate` issues one write of the formatted value, with
message type 1, to every client of the list in order, whether or not an earlier write
failed, and returns with the server, its `clients` included, as it was: a subscriber whose
write fails stays registered. -/
theorem broadcast_writes_all_keeps_all (net : Net) (t : TickerServer) (value : F64) :
    (broadcastTickerUpdate net t value).1 = t ∧
      (broadcastTickerUpdate net t value).2
        = t.clients.map (fun c => ⟨c, 1, net.formatFloat value, net.writeFails c⟩) := by
  have h := broadcast_foldl net value t.clients t []
  simp only [List.nil_append] at h
  constructor
  · exact congrArg Prod.fst h
  · exact congrArg Prod.snd h

theorem startStep_pc_receive (net : Net) (s : StartState) (e : Event)
    (h : (startStep net s e).pc ≠ Pc.receive) : s.pc ≠ Pc.receive := by
  intro hs
  apply h
  cases e <;> simp [startStep, hs]

theorem startStep_idle (net : Net) (s : StartState) (e : Event) (h : s.pc ≠ Pc.receive) :
    (startStep net s e).t.lastAvg = s.t.lastAvg ∧ (startStep net s e).received = s.received ∧
      (startStep net s e).writes = s.writes := by
  cases e <;> cases hpc : s.pc <;> simp_all [startStep, register]

theorem run_receive_absorbing (net : Net) (events : List Event) :
    ∀ (s : StartState), s.pc = Pc.receive → (events.foldl (startStep net) s).pc = Pc.receive := by
  induction events with
  | nil => intro s h; exact h
  | cons e es ih =>
    intro s h
    rw [List.foldl_cons]
    apply ih
    cases e <;> simp [startStep, h]

theorem run_idle (net : Net) (events : List Event) :
    ∀ (s : StartState), (events.foldl (startStep net) s).pc ≠ Pc.receive →
      (events.foldl (startStep net) s).t.lastAvg = s.t.lastAvg ∧
      (events.foldl (startStep net) s).received = s.received ∧
      (events.foldl (startStep net) s).writes = s.writes := by
  induction events with
  | nil => intro s _; exact ⟨rfl, rfl, rfl⟩
  | cons e es ih =>
    intro s h
    rw [List.foldl_cons] at h ⊢
    have h1 := ih (startStep net s e) h
    have hpc : (startStep net s e).pc ≠ Pc.receive :=
      fun hc => h (run_receive_absorbing net es _ hc)
    have h2 := startStep_idle net s e (startStep_pc_receive net s e hpc)
    exact ⟨h1.1.trans h2.1, h1.2.1.trans h2.2.1, h1.2.2.trans h2.2.2⟩

theorem startStep_receive_publishes (net : Net) (s : StartState) (v : F64)
    (h : s.pc = Pc.receive) :
    (startStep net s (Event.offer v)).t = { s.t with lastAvg := v } ∧
      (startStep net s (Event.offer v)).received = s.received ++ [v] ∧
      (startStep net s (Event.offer v)).writes
        = s.writes ++ s.t.clients.map (fun c => ⟨c, 1, net.formatFloat v, net.writeFails c⟩) := by
  have hb := broadcast_foldl net v s.t.clients { s.t with lastAvg := v } []
  simp only [List.nil_append] at hb
  simp [startStep, h, broadcastTickerUpdate, hb]

/-- C9, where the code departs from it: in every run of `Start`, while the gateway is
serving (the goroutine is inside `ListenAndServe`) the receive loop has not been reached:
no offered metric has been received, `lastAvg` is still 0 and nothing has been written to
a subscriber. -/
theorem start_serving_never_receives (net : Net) (events : List Event)
    (h : (startRun net events).serving = true) :
    (startRun net events).pc ≠ Pc.receive ∧ (startRun net events).received = [] ∧
      (startRun net events).t.lastAvg = F64.fin 0 ∧ (startRun net events).writes = [] := by
  have hpc : (startRun net events).pc = Pc.listenAndServe := by
    simpa [StartState.serving] using h
  have hne : (startRun net events).pc ≠ Pc.receive := by rw [hpc]; decide
  have := run_idle net events ⟨.handleFunc, CreateWSServer, [], []⟩ hne
  exact ⟨hne, this.2.1, this.1, this.2.2⟩

/-- Witness for C9: the server is serving, subscriber 1 is accepted, and the feed offers
the metric 20. -/
theorem start_serving_never_receives_witness :
    (startRun ⟨fun _ => "20", fun _ => false⟩
        [Event.run, Event.accept 1, Event.offer (F64.fin 20)]).received = [] ∧
      (startRun ⟨fun _ => "20", fun _ => false⟩
        [Event.run, Event.accept 1, Event.offer (F64.fin 20)]).t = ⟨F64.fin 0, [1]⟩ ∧
      (startRun ⟨fun _ => "20", fun _ => false⟩
        [Event.run, Event.accept 1, Event.offer (F64.fin 20)]).writes = [] :=
  have h := start_serving_never_receives ⟨fun _ => "20", fun _ => false⟩
    [Event.run, Event.accept 1, Event.offer (F64.fin 20)] (by decide)
  ⟨h.2.1, by decide, h.2.2.2⟩

end Server
